import Mathlib

/-!
Shallow embedding of the Tak move-selection engine of this repository
(`src/bot.py`, `src/part_2/bot.py`, `src/part_3/playtak.py`) and proofs about it.

Python `float` values appearing here are exact (integers, halves and quarters),
so finite scores are modelled by `ℚ`; the `inf` / `-inf` sentinels become the
`posInf` / `negInf` constructors of `Score`.  Python lists become `List`,
`None`-able values become `Option`, a raised exception becomes the `error`
branch of `Except`.  The external rules engine `takpy` is out of scope of the
repository (the spec lists it as an external collaborator); the engine state a
position exposes is abstracted by the `Rules` structure below, whose fields are
exactly the accessors the source uses.
-/

/-- `takpy.Color`. -/
inductive Color where
  | White
  | Black
deriving DecidableEq

/-- `Color.next` from takpy: the other color. -/
def Color.next : Color → Color
  | .White => .Black
  | .Black => .White

/-- `takpy.GameResult`. -/
inductive GameResult where
  | Ongoing
  | WhiteWin
  | BlackWin
  | Draw
deriving DecidableEq

/-- `takpy.Piece`. -/
inductive Piece where
  | Flat
  | Wall
  | Cap
deriving DecidableEq

/-- `takpy.Direction`. -/
inductive Direction where
  | Up
  | Down
  | Left
  | Right
deriving DecidableEq

/-- `takpy.Move`: a tagged union of placements and spreads (spec §3).
A placement has a piece kind and a target square `(row, col)`; a spread has an
origin square, a direction and its ordered drop counts. -/
inductive Move where
  | place (piece : Piece) (square : Nat × Nat)
  | spread (square : Nat × Nat) (direction : Direction) (drop_counts : List Nat)
deriving DecidableEq

/-- `move.square` accessor of takpy. -/
def Move.square : Move → Nat × Nat
  | .place _ sq => sq
  | .spread sq _ _ => sq

/-- Python `float` scores: a rational, or one of the two infinite sentinels
(`inf` / `-inf` from `math`). -/
inductive Score where
  | negInf
  | fin (q : ℚ)
  | posInf
deriving DecidableEq

/-- Total order on `Score`, matching IEEE comparison of floats with `±inf`
(no NaN can arise in this program). -/
def Score.leB : Score → Score → Bool
  | .negInf, _ => true
  | _, .posInf => true
  | .fin a, .fin b => decide (a ≤ b)
  | .posInf, .fin _ => false
  | .posInf, .negInf => false
  | .fin _, .negInf => false

/-- Python `a < b` on floats. -/
def pyLt (a b : Score) : Bool := !(Score.leB b a)

/-- Python `max(a, b)`: returns the first argument when the two are equal. -/
def pyMax (a b : Score) : Score := if Score.leB b a then a else b

/-- Python `min(a, b)`: returns the first argument when the two are equal. -/
def pyMin (a b : Score) : Score := if Score.leB a b then a else b

/-- A square of the board: `None` or a stack `(piece, colors)`
(type hint `Square` in src/bot.py). -/
abbrev Square := Option (Piece × List Color)

/-- The board: a list of rows of squares (type hint `Board` in src/bot.py). -/
abbrev Board := List (List Square)

/-- Python `board[row][col]`.  Out-of-range indices raise `IndexError` in
Python; they are totalised to the empty square here.  Every use in the source
is on the square of a legal move or on a bounds-checked neighbor, so the
default is never reached on the inputs the program produces. -/
def boardGet (board : Board) (row col : Nat) : Square :=
  (board.getD row []).getD col none

/-- The read accessors of the external rules engine consumed by the core
(spec §6), bundled over an abstract position type `G`:
`result`, `to_move`, `ply`, `half_komi`, `size`, `board`, `possible_moves`
and clone-and-play. -/
structure Rules (G : Type) where
  result : G → GameResult
  to_move : G → Color
  ply : G → Nat
  half_komi : G → Int
  size : G → Nat
  board : G → Board
  possible_moves : G → List Move
  clone_and_play : G → Move → G

/-- `calculate_fcd` (src/bot.py lines 35-48): flat-count differential starting
from `-half_komi / 2`, `+1` per White-topped flat stack, `-1` per Black-topped
one.  The Python loop reads `colors[-1]`; a stack's color list is never empty,
modelled via `getLast?`. -/
def calculate_fcd {G : Type} (R : Rules G) (g : G) : ℚ :=
  (R.board g).foldl
    (fun acc row => row.foldl
      (fun acc sq =>
        match sq with
        | none => acc
        | some (piece, colors) =>
          if piece = Piece.Flat then
            match colors.getLast? with
            | some Color.White => acc + 1
            | some Color.Black => acc - 1
            | none => acc
          else acc)
      acc)
    (-(R.half_komi g : ℚ) / 2)

/-- `cols` (src/bot.py lines 73-74): the columns of the board.  Python
`row[i]` raises out of range; rows of a real board all have length `size`,
totalised with an empty square default. -/
def cols (board : Board) (size : Nat) : Board :=
  (List.range size).map (fun i => board.map (fun row => row.getD i none))

/-- `unique_rows_and_cols` (src/bot.py lines 51-70): number of rows plus number
of columns containing at least one stack topped by `color` (the `break` in the
source makes each row/column count at most once). -/
def unique_rows_and_cols {G : Type} (R : Rules G) (g : G) (color : Color) : Nat :=
  (R.board g).countP
    (fun row => row.any (fun sq =>
      match sq with
      | none => false
      | some (_, colors) => decide (colors.getLast? = some color)))
  + (cols (R.board g) (R.size g)).countP
    (fun col => col.any (fun sq =>
      match sq with
      | none => false
      | some (_, colors) => decide (colors.getLast? = some color)))

/-- `game_eval` (src/bot.py lines 17-32): sentinels for terminal results,
otherwise flat-count differential plus the line-control difference. -/
def game_eval {G : Type} (R : Rules G) (g : G) : Score :=
  match R.result g with
  | .WhiteWin => .posInf
  | .BlackWin => .negInf
  | .Draw => .fin 0
  | .Ongoing =>
    .fin (calculate_fcd R g
      + (unique_rows_and_cols R g Color.White : ℚ)
      - (unique_rows_and_cols R g Color.Black : ℚ))

/-- `road_piece` (src/bot.py lines 97-102). -/
def road_piece : Piece → Bool
  | .Flat => true
  | .Cap => true
  | .Wall => false

/-- `row_col_score` (src/bot.py lines 77-94): per-row and per-column counts of
stacks topped by a road piece of `color`. -/
def row_col_score (board : Board) (size : Nat) (color : Color) :
    List Nat × List Nat :=
  (board.map (fun row =>
      (row.filterMap id).countP
        (fun sq => road_piece sq.1 && decide (sq.2.getLast? = some color))),
   (cols board size).map (fun col =>
      (col.filterMap id).countP
        (fun sq => road_piece sq.1 && decide (sq.2.getLast? = some color))))

/-- `neighbor_stacks` (src/bot.py lines 105-115): the non-empty orthogonal
neighbor stacks of a square. -/
def neighbor_stacks (board : Board) (size row col : Nat) :
    List (Piece × List Color) :=
  (((if row < size - 1 then [boardGet board (row + 1) col] else [])
    ++ (if 1 ≤ row then [boardGet board (row - 1) col] else [])
    ++ (if col < size - 1 then [boardGet board row (col + 1)] else [])
    ++ (if 1 ≤ col then [boardGet board row (col - 1)] else [])).filterMap id)

/-- Heuristic weights (src/bot.py lines 118-127). -/
def PLACEMENT_VALUE : ℚ := 100

def FLAT_VALUE : ℚ := 100

def CAP_VALUE : ℚ := 50

def WALL_VALUE : ℚ := 0

def ROAD_MOTIVATION : ℚ := 10

def CENTER_PRIORITY : ℚ := 20

def OPPONENT_NEXT_TO_NOBLE : ℚ := 50

def STACK_NEXT_TO_NOBLE : ℚ := 10

def FLAT_CAPTURE_PUNISHMENT : ℚ := 100

def SPREAD_ME_BONUS : ℚ := 20

/-- `move_rank` (src/bot.py lines 137-179), the inner scoring closure of
`move_ordering`, abstracted over the values it captures (`board`, `game.size`,
the precomputed `row_score` / `col_score`, `me`, `opponent`).
Note the source computes the distance to `(game.size + 1) / 2` in each axis
(not `(size - 1) / 2`), and subtracts the centrality term only for flat and
capstone placements.  In the spread branch, Python unpacks `board[row][col]`
(raising on an empty origin, which no legal move has; totalised to score 0)
and reads `colors[dropped - 1]` (for a legal spread `dropped ≥ 1`; the
out-of-range read is totalised to "no bonus" via `get?`). -/
def move_rank (board : Board) (size : Nat) (rowScore colScore : List Nat)
    (me opponent : Color) (move : Move) : ℚ :=
  let row := move.square.1
  let col := move.square.2
  let distance_to_center : ℚ :=
    |(row : ℚ) - ((size : ℚ) + 1) / 2| + |(col : ℚ) - ((size : ℚ) + 1) / 2|
  let neighbors := neighbor_stacks board size row col
  match move with
  | .place piece _ =>
    PLACEMENT_VALUE
    + (match piece with
       | .Flat | .Cap =>
         ROAD_MOTIVATION * ((rowScore.getD row 0 : ℚ) + (colScore.getD col 0 : ℚ))
         - CENTER_PRIORITY * distance_to_center
       | .Wall => 0)
    + (match piece with
       | .Cap | .Wall =>
         (neighbors.map (fun n =>
           (if n.2.getLast? = some opponent then OPPONENT_NEXT_TO_NOBLE else 0)
           + STACK_NEXT_TO_NOBLE * (n.2.length : ℚ))).sum
       | .Flat => 0)
    + (match piece with
       | .Flat => FLAT_VALUE
       | .Cap => CAP_VALUE
       | .Wall => WALL_VALUE)
  | .spread _ _ dcs =>
    match boardGet board row col with
    | none => 0
    | some (piece, colors) =>
      (dcs.dropLast.foldl
        (fun (acc : ℚ × Nat) dc =>
          let dropped := acc.2 + dc
          (acc.1 + (if colors.get? (dropped - 1) = some me then SPREAD_ME_BONUS else 0),
           dropped))
        ((if piece = Piece.Flat then -FLAT_CAPTURE_PUNISHMENT else 0), 0)).1

/-- The key function `sorted` is called with in `move_ordering`
(src/bot.py line 181): `move_rank` with the captured position data filled in. -/
def moveKey {G : Type} (R : Rules G) (g : G) (move : Move) : ℚ :=
  move_rank (R.board g) (R.size g)
    (row_col_score (R.board g) (R.size g) (R.to_move g)).1
    (row_col_score (R.board g) (R.size g) (R.to_move g)).2
    (R.to_move g) (R.to_move g).next move

/-- The comparison Python `sorted(xs, key=key, reverse=rev)` sorts by:
stable ascending order on the key, with the key order flipped when
`reverse=True` (CPython's sort is stable also for `reverse=True`:
tied elements keep their original order). -/
def pyKeyLe (key : Move → ℚ) (rev : Bool) (a b : Move) : Bool :=
  if rev then decide (key b ≤ key a) else decide (key a ≤ key b)

/-- `move_ordering` (src/bot.py lines 130-181):
`sorted(game.possible_moves, key=move_rank, reverse=game.ply > 1)`.
Python's `sorted` is a stable sort; `List.insertionSort` with the
may-precede relation `pyKeyLe` is a stable sort by the same total preorder,
hence produces the same list. -/
def move_ordering {G : Type} (R : Rules G) (g : G) : List Move :=
  List.insertionSort
    (fun a b => pyKeyLe (moveKey R g) (decide (1 < R.ply g)) a b = true)
    (R.possible_moves g)

/-- Accumulating loop of `negamax` for White (src/bot.py lines 243-247).
The accumulator models the local variable `value`, which is **never
initialised** in the source: `none` is the unassigned state.  Python evaluates
the arguments of `max(value, negamax(...))` left to right, so with `value`
unassigned it raises `UnboundLocalError` before making the recursive call
(the `error` branch); with the move list empty, `return value` raises the same
error. -/
def foldMaxAcc (f : Move → Except Unit Score) :
    List Move → Option Score → Except Unit Score
  | [], none => .error ()
  | [], some v => .ok v
  | _ :: _, none => .error ()
  | m :: ms, some v =>
    match f m with
    | .error e => .error e
    | .ok s => foldMaxAcc f ms (some (pyMax v s))

/-- Accumulating loop of `negamax` for Black (src/bot.py lines 248-252),
symmetric to `foldMaxAcc`. -/
def foldMinAcc (f : Move → Except Unit Score) :
    List Move → Option Score → Except Unit Score
  | [], none => .error ()
  | [], some v => .ok v
  | _ :: _, none => .error ()
  | m :: ms, some v =>
    match f m with
    | .error e => .error e
    | .ok s => foldMinAcc f ms (some (pyMin v s))

/-- `negamax` (src/bot.py lines 233-253): despite the name, a plain minimax.
Terminal results return their sentinels, depth 0 returns `game_eval`; otherwise
the accumulating loops run with the local `value` unassigned (see
`foldMaxAcc`).  `clone = game.clone(); clone.play(move)` is clone-and-play. -/
def negamax {G : Type} (R : Rules G) : Nat → G → Except Unit Score
  | d, g =>
    match R.result g with
    | .WhiteWin => .ok .posInf
    | .BlackWin => .ok .negInf
    | .Draw => .ok (.fin 0)
    | .Ongoing =>
      match d with
      | 0 => .ok (game_eval R g)
      | d' + 1 =>
        if R.to_move g = Color.White then
          foldMaxAcc (fun m => negamax R d' (R.clone_and_play g m))
            (R.possible_moves g) none
        else
          foldMinAcc (fun m => negamax R d' (R.clone_and_play g m))
            (R.possible_moves g) none

/-- The `match game.to_move, game.result:` at the top of `alpha_beta`
(src/bot.py line 258) matches the **tuple** `(to_move, result)` against the
value patterns `GameResult.WhiteWin` / `BlackWin` / `Draw`.  Python compares a
tuple with an enum member by `==`, which is always `False`, so none of the
three terminal cases can ever fire: the terminal check of `alpha_beta` is dead
code and control always falls through.  This constant-false comparison models
that tuple-versus-member equality. -/
def pyTupleEqResult (_to_move : Color) (_result : GameResult)
    (_pattern : GameResult) : Bool := false

/-- The White (maximizing) loop of `alpha_beta` (src/bot.py lines 270-277).
State: `value` (`v`) and `alpha`; `beta` is never written in this branch.
Per iteration: `search_value = alpha_beta(clone_and_play(move), d-1, alpha,
beta)` (a Black child that fell off the end returns `None`, making
`max(value, None)` raise `TypeError` — the `.ok none => .error ()` case);
`value = max(value, search_value)`; `if value > beta: break` followed by
`return value` after the loop; else `alpha = max(alpha, beta)` — the source
really reads `beta` here, not `value`. -/
def abWhiteLoop (search : Move → Score → Except Unit (Option Score))
    (beta : Score) : List Move → Score → Score → Except Unit (Option Score)
  | [], v, _alpha => .ok (some v)
  | m :: ms, v, alpha =>
    match search m alpha with
    | .error e => .error e
    | .ok none => .error ()
    | .ok (some s) =>
      let v' := pyMax v s
      if pyLt beta v' then .ok (some v')
      else abWhiteLoop search beta ms v' (pyMax alpha beta)

/-- The Black (minimizing) loop of `alpha_beta` (src/bot.py lines 280-287).
The `else` branch of the source has **no** `return` statement: whether the
loop finishes or `break`s on `value < alpha`, the function falls off its end
and returns `None` (`.ok none`). -/
def abBlackLoop (search : Move → Score → Except Unit (Option Score))
    (alpha : Score) : List Move → Score → Score → Except Unit (Option Score)
  | [], _v, _beta => .ok none
  | m :: ms, v, beta =>
    match search m beta with
    | .error e => .error e
    | .ok none => .error ()
    | .ok (some s) =>
      let v' := pyMin v s
      if pyLt v' alpha then .ok none
      else abBlackLoop search alpha ms v' (pyMin beta v')

/-- `alpha_beta` (src/bot.py lines 257-287).  The result is
`.ok (some s)` for a returned float `s`, `.ok none` for a returned `None`
(the minimizing branch has no `return`), and `.error ()` for a raised
exception (`TypeError` from `max`/`min` against `None`).  The three leading
`if`s are the dead tuple match, see `pyTupleEqResult`. -/
def alpha_beta {G : Type} (R : Rules G) :
    Nat → G → Score → Score → Except Unit (Option Score)
  | d, g, alpha, beta =>
    if pyTupleEqResult (R.to_move g) (R.result g) GameResult.WhiteWin then
      .ok (some .posInf)
    else if pyTupleEqResult (R.to_move g) (R.result g) GameResult.BlackWin then
      .ok (some .negInf)
    else if pyTupleEqResult (R.to_move g) (R.result g) GameResult.Draw then
      .ok (some (.fin 0))
    else
      match d with
      | 0 => .ok (some (game_eval R g))
      | d' + 1 =>
        let moves := move_ordering R g
        if R.to_move g = Color.White then
          abWhiteLoop (fun m a => alpha_beta R d' (R.clone_and_play g m) a beta)
            beta moves .negInf alpha
        else
          abBlackLoop (fun m b => alpha_beta R d' (R.clone_and_play g m) alpha b)
            alpha moves .posInf beta

/-! ### Concrete positions used to evaluate the search functions

Each claim that is settled by running the code on a concrete input gets a
small `Rules Nat` instance: the natural number is the position (0 the root,
positive numbers the child positions reached by `clone_and_play`). -/

/-- A flat placement on the corner square, used as a concrete move. -/
def mvFlat : Move := .place .Flat (0, 0)

/-- A capstone placement on the corner square, used as a concrete move. -/
def mvCap : Move := .place .Cap (0, 0)

/-- Root 0: Ongoing, White to move, two legal moves; `mvFlat` leads to a drawn
position (1) and `mvCap` to a White win (2).  `move_rank` gives `mvFlat` the
key 160 and `mvCap` the key 110, so the ranked order is `[mvFlat, mvCap]`. -/
def c1Rules : Rules Nat where
  result := fun g => if g = 0 then .Ongoing else if g = 1 then .Draw else .WhiteWin
  to_move := fun _ => .White
  ply := fun _ => 2
  half_komi := fun _ => 0
  size := fun _ => 1
  board := fun _ => [[none]]
  possible_moves := fun g => if g = 0 then [mvFlat, mvCap] else []
  clone_and_play := fun _ m => match m with | .place .Flat _ => 1 | _ => 2

/-- A finished position: White has already won, Black to move, and the rules
engine reports no legal moves for a finished game. -/
def c2Rules : Rules Nat where
  result := fun _ => .WhiteWin
  to_move := fun _ => .Black
  ply := fun _ => 5
  half_komi := fun _ => 0
  size := fun _ => 1
  board := fun _ => [[none]]
  possible_moves := fun _ => []
  clone_and_play := fun _ _ => 0

/-- Root 0: Ongoing, Black to move, one legal move leading to a draw (1). -/
def c3Rules : Rules Nat where
  result := fun g => if g = 0 then .Ongoing else .Draw
  to_move := fun _ => .Black
  ply := fun _ => 2
  half_komi := fun _ => 0
  size := fun _ => 1
  board := fun _ => [[none]]
  possible_moves := fun g => if g = 0 then [mvFlat] else []
  clone_and_play := fun _ _ => 1

/-- Root 0: Ongoing, White to move, one legal move leading to a draw (1). -/
def c4Rules : Rules Nat where
  result := fun g => if g = 0 then .Ongoing else .Draw
  to_move := fun _ => .White
  ply := fun _ => 2
  half_komi := fun _ => 0
  size := fun _ => 1
  board := fun _ => [[none]]
  possible_moves := fun g => if g = 0 then [mvFlat] else []
  clone_and_play := fun _ _ => 1

/-- Terminal positions of all three kinds: 0 is a White win, 1 a Black win,
2 a draw.  The boards are non-trivial so that a heuristic contribution, were
one added, would be visible. -/
def c6Rules : Rules Nat where
  result := fun g => if g = 0 then .WhiteWin else if g = 1 then .BlackWin else .Draw
  to_move := fun _ => .White
  ply := fun _ => 9
  half_komi := fun _ => 0
  size := fun _ => 2
  board := fun _ => [[some (.Flat, [.White]), some (.Flat, [.White])],
                     [some (.Flat, [.Black]), none]]
  possible_moves := fun _ => []
  clone_and_play := fun _ _ => 0

/-- An Ongoing position, White to move, for which the rules engine reports an
empty legal-move list (the invariant-violation scenario of spec §4.3/§7). -/
def c7Rules : Rules Nat where
  result := fun _ => .Ongoing
  to_move := fun _ => .White
  ply := fun _ => 2
  half_komi := fun _ => 0
  size := fun _ => 1
  board := fun _ => [[none]]
  possible_moves := fun _ => []
  clone_and_play := fun _ _ => 0

/-- As `c7Rules` but with Black to move. -/
def c7bRules : Rules Nat where
  result := fun _ => .Ongoing
  to_move := fun _ => .Black
  ply := fun _ => 3
  half_komi := fun _ => 0
  size := fun _ => 1
  board := fun _ => [[none]]
  possible_moves := fun _ => []
  clone_and_play := fun _ _ => 0

/-- The spec §8 scenario: an empty 4×4 board, White to move. -/
def c9Rules : Rules Nat where
  result := fun _ => .Ongoing
  to_move := fun _ => .White
  ply := fun _ => 0
  half_komi := fun _ => 0
  size := fun _ => 4
  board := fun _ => List.replicate 4 (List.replicate 4 none)
  possible_moves := fun _ => []
  clone_and_play := fun _ _ => 0

/-! ### The playtak wire notation (src/part_3/playtak.py)

Python strings are modelled as their sequences of Unicode code points
(`List Nat`); `ord` is then the code point itself and string concatenation is
list append.  All strings involved are ASCII. -/

/-- A Python string as its code-point sequence. -/
abbrev PyStr := List Nat

/-- Python `str(n)` for a natural number: its decimal digits. -/
def pyStrOfNat (n : Nat) : PyStr := (Nat.repr n).data.map Char.toNat

/-- Python `" ".join(tokens)`. -/
def joinSp : List PyStr → PyStr
  | [] => []
  | [t] => t
  | t :: ts => t ++ ' '.toNat :: joinSp ts

/-- Worker for `splitSp`: `acc` is the (reversed-free) current token. -/
def splitSpAux : List Nat → PyStr → List PyStr
  | [], acc => if acc = [] then [] else [acc]
  | c :: rest, acc =>
    if c = ' '.toNat then
      if acc = [] then splitSpAux rest [] else acc :: splitSpAux rest []
    else splitSpAux rest (acc ++ [c])

/-- Python `s.split()`: split on whitespace runs, producing no empty tokens
(the space character is the only whitespace these messages contain). -/
def splitSp (s : PyStr) : List PyStr := splitSpAux s []

/-- Python `str.lower()` on one code point (ASCII range, as all these strings
are ASCII). -/
def lowerCp (c : Nat) : Nat :=
  if 'A'.toNat ≤ c ∧ c ≤ 'Z'.toNat then c + 32 else c

/-- Python `int(token)` for a decimal-digit token.  On a non-digit token
Python raises `ValueError`; this total version is only ever relied on for
digit tokens (on junk input `from_playtak_notation` already fails through
`pyMoveOfPtn`, matching the Python error outcome). -/
def pyInt (t : PyStr) : Nat := t.foldl (fun a c => 10 * a + (c - '0'.toNat)) 0

/-- `to_playtak_square` (src/part_3/playtak.py lines 35-36):
`"ABCDEFGH"[col] + str(row + 1)`.  Python raises `IndexError` for `col ≥ 8`;
totalised with code point 0, never reached for in-range moves. -/
def to_playtak_square (row col : Nat) : PyStr :=
  [("ABCDEFGH".data.map Char.toNat).getD col 0] ++ pyStrOfNat (row + 1)

/-- The end square of a spread: the origin offset by the number of drops in
the spread's direction (the `end_row` / `end_col` computation of
src/part_3/playtak.py lines 56-65).  Python would produce a negative
coordinate for an off-board Down/Left spread; natural subtraction truncates
instead, which in-range moves never exercise. -/
def spreadEnd (row col : Nat) (dir : Direction) (n : Nat) : Nat × Nat :=
  match dir with
  | .Up => (row + n, col)
  | .Down => (row - n, col)
  | .Left => (row, col - n)
  | .Right => (row, col + n)

/-- `to_playtak_notation` (src/part_3/playtak.py lines 39-69):
`"P <square>[ <W|C>]"` for placements,
`"M <start> <end> <drop1> <drop2> ..."` for spreads. -/
def to_playtak_notation : Move → PyStr
  | .place piece (row, col) =>
    let start := to_playtak_square row col
    let pieceStr : PyStr :=
      match piece with
      | .Flat => []
      | .Wall => [' '.toNat, 'W'.toNat]
      | .Cap => [' '.toNat, 'C'.toNat]
    ['P'.toNat, ' '.toNat] ++ start ++ pieceStr
  | .spread (row, col) dir dcs =>
    let start := to_playtak_square row col
    let e := spreadEnd row col dir dcs.length
    let drops := joinSp (dcs.map pyStrOfNat)
    ['M'.toNat, ' '.toNat] ++ start ++ [' '.toNat]
      ++ to_playtak_square e.1 e.2 ++ [' '.toNat] ++ drops

/-- PTN file letter: `a` (code 97) plus the column. -/
def parseFileCp (c : Nat) : Option Nat :=
  if 'a'.toNat ≤ c ∧ c ≤ 'h'.toNat then some (c - 'a'.toNat) else none

/-- PTN rank digit: `1` (code 49) plus the row. -/
def parseRankCp (c : Nat) : Option Nat :=
  if '1'.toNat ≤ c ∧ c ≤ '8'.toNat then some (c - '1'.toNat) else none

/-- Parse a PTN square, returning `(row, col)` and the remaining input. -/
def parseSq : PyStr → Option ((Nat × Nat) × PyStr)
  | f :: r :: rest =>
    match parseFileCp f, parseRankCp r with
    | some col, some row => some ((row, col), rest)
    | _, _ => none
  | _ => none

/-- Parse a PTN direction character. -/
def parseDirCp (c : Nat) : Option Direction :=
  if c = '+'.toNat then some .Up
  else if c = '-'.toNat then some .Down
  else if c = '<'.toNat then some .Left
  else if c = '>'.toNat then some .Right
  else none

/-- A decimal digit code point and its value. -/
def digitValCp (c : Nat) : Option Nat :=
  if '0'.toNat ≤ c ∧ c ≤ '9'.toNat then some (c - '0'.toNat) else none

/-- Parse PTN drop digits, one digit per drop, each nonzero. -/
def parseDrops : PyStr → Option (List Nat)
  | [] => some []
  | c :: rest =>
    match digitValCp c with
    | none => none
    | some d => if 1 ≤ d then (parseDrops rest).map (fun ds => d :: ds) else none

/-- Parse the square of a placement and require the input to end there. -/
def parsePlace (piece : Piece) (s : PyStr) : Option Move :=
  match parseSq s with
  | some (sq, []) => some (.place piece sq)
  | _ => none

/-- Modelled from the spec: the `Move(...)` constructor called by
`from_playtak_notation` is the PTN-text move parser of the external rules
engine `takpy`, which is not part of this repository.  Per the spec's data
model and boundary description (§3, §6), a placement text is an optional
piece letter (`S` wall, `C` capstone, nothing for a flat) followed by a
square (file letter from `a`, 1-based rank digit), and a spread text is the
carried count, the origin square, a direction character (`+` up, `-` down,
`<` left, `>` right) and one nonzero digit per drop, the digits summing to
the carried count; anything else raises `ValueError`, modelled as `none`. -/
def pyMoveOfPtn (s : PyStr) : Option Move :=
  match s with
  | [] => none
  | c :: rest =>
    if c = 'S'.toNat then parsePlace .Wall rest
    else if c = 'C'.toNat then parsePlace .Cap rest
    else
      match digitValCp c with
      | some cnt =>
        match parseSq rest with
        | some (sq, dch :: dRest) =>
          match parseDirCp dch with
          | some dir =>
            match parseDrops dRest with
            | some drops =>
              if drops ≠ [] ∧ drops.sum = cnt then some (.spread sq dir drops)
              else none
            | none => none
          | none => none
        | _ => none
      | none => parsePlace .Flat s

/-- `from_playtak_notation` (src/part_3/playtak.py lines 72-95).
`s.split()` is `splitSp`; the first `case` requires at least two tokens with
the first equal to `"P"` and treats any trailing tokens other than exactly
`["W"]` / `["C"]` as no piece letter; the second requires at least three
tokens with the first equal to `"M"`, infers the direction from the sign of
the file delta then of the rank delta between the start and end squares
(`ord` of a code point is the code point; Python indexing `end[1]` on a
1-character token would raise, totalised by `getD`, never reached on
well-formed messages), and hands the rebuilt PTN text
`f"{sum}{start}{direction}{drops}"` to the rules engine's move constructor;
any other token shape raises `ValueError` (`none`). -/
def from_playtak_notation (s : PyStr) : Option Move :=
  match splitSp s with
  | t0 :: t1 :: rest =>
    if t0 = ['P'.toNat] then
      let pieceStr : PyStr :=
        if rest = [['W'.toNat]] then ['S'.toNat]
        else if rest = [['C'.toNat]] then ['C'.toNat]
        else []
      pyMoveOfPtn (pieceStr ++ t1.map lowerCp)
    else if t0 = ['M'.toNat] then
      match rest with
      | t2 :: drops =>
        let x : Int := (t2.getD 0 0 : Int) - (t1.getD 0 0 : Int)
        let y : Int := (t2.getD 1 0 : Int) - (t1.getD 1 0 : Int)
        let dirStr : PyStr :=
          if 0 < x then ['>'.toNat]
          else if x < 0 then ['<'.toNat]
          else if 0 < y then ['+'.toNat]
          else if y < 0 then ['-'.toNat]
          else []
        pyMoveOfPtn (pyStrOfNat (drops.map pyInt).sum ++ t1.map lowerCp
          ++ dirStr ++ drops.flatten)
      | [] => none
    else none
  | _ => none

/-- In-range moves for the wire protocol: the square lies on the (at most
8×8) playtak board; a spread in addition has at least one drop, single-digit
drop counts, a carried total within the board size, and an end square still
on the board. -/
def moveInRange : Move → Bool
  | .place _ (row, col) => decide (row < 8) && decide (col < 8)
  | .spread (row, col) dir dcs =>
    decide (row < 8) && decide (col < 8) && decide (dcs ≠ []) &&
    dcs.all (fun d => decide (1 ≤ d) && decide (d ≤ 8)) &&
    decide (dcs.sum ≤ 8) &&
    (match dir with
     | .Up => decide (row + dcs.length < 8)
     | .Down => decide (dcs.length ≤ row)
     | .Left => decide (dcs.length ≤ col)
     | .Right => decide (col + dcs.length < 8))

/-- The well-formed placement messages `"P <square>[ <W|C>]"`: uppercase file
letter, 1-based rank digit, optional piece suffix. -/
def wfPlaceStr (row col : Nat) (piece : Piece) : PyStr :=
  ['P'.toNat, ' '.toNat, 'A'.toNat + col, '1'.toNat + row] ++
  (match piece with
   | .Flat => []
   | .Wall => [' '.toNat, 'W'.toNat]
   | .Cap => [' '.toNat, 'C'.toNat])

/-- The well-formed spread messages `"M <start> <end> <drops...>"`: per spec
§6, the end square is the start square offset by the number of drop steps in
the spread's direction and the single-digit drop counts follow verbatim,
space-separated. -/
def wfSpreadStr (row col : Nat) (dir : Direction) (dcs : List Nat) : PyStr :=
  ['M'.toNat, ' '.toNat, 'A'.toNat + col, '1'.toNat + row, ' '.toNat,
   'A'.toNat + (spreadEnd row col dir dcs.length).2,
   '1'.toNat + (spreadEnd row col dir dcs.length).1, ' '.toNat] ++
  joinSp (dcs.map (fun d => ['0'.toNat + d]))

/-- `distance_from_center` (src/part_2/bot.py lines 59-62): Manhattan distance
from the board's true center, `mid = (size - 1) / 2` in each axis. -/
def distance_from_center (row col : Nat) (size : Nat) : ℚ :=
  |(row : ℚ) - ((size : ℚ) - 1) / 2| + |(col : ℚ) - ((size : ℚ) - 1) / 2|

/-! ### Theorems -/

/-- Totality of the comparison used by `move_ordering`. -/
theorem pyKeyLe_total (key : Move → ℚ) (rev : Bool) (a b : Move) :
    pyKeyLe key rev a b = true ∨ pyKeyLe key rev b a = true := by
  cases rev <;> simp [pyKeyLe] <;> exact le_total _ _

/-- Transitivity of the comparison used by `move_ordering`. -/
theorem pyKeyLe_trans (key : Move → ℚ) (rev : Bool) {a b c : Move}
    (h1 : pyKeyLe key rev a b = true) (h2 : pyKeyLe key rev b c = true) :
    pyKeyLe key rev a c = true := by
  cases rev <;> simp [pyKeyLe] at h1 h2 ⊢ <;> exact le_trans (by assumption) (by assumption)

/-- Key ties always relate under the comparison used by `move_ordering`. -/
theorem pyKeyLe_of_eq (key : Move → ℚ) (rev : Bool) {a b : Move}
    (h : key a = key b) : pyKeyLe key rev a b = true := by
  cases rev <;> simp [pyKeyLe, h]

/-- Stability of `List.insertionSort` for a class of mutually related
elements: the sorted list restricts to the same sublist as the input. -/
theorem filter_insertionSort_eq {α : Type} (r : α → α → Prop) [DecidableRel r]
    (p : α → Bool) (l : List α) (hp : ∀ a b, p a = true → p b = true → r a b) :
    (List.insertionSort r l).filter p = l.filter p := by
  have h1 : List.Sublist (l.filter p) (List.insertionSort r l) := by
    apply List.sublist_insertionSort
    · exact List.pairwise_of_forall_mem_list
        (fun a ha b hb => hp a b (List.of_mem_filter ha) (List.of_mem_filter hb))
    · exact List.filter_sublist l
  have h2 : List.Sublist (l.filter p) ((List.insertionSort r l).filter p) := by
    simpa using h1.filter p
  have h3 : ((List.insertionSort r l).filter p).length = (l.filter p).length :=
    ((List.perm_insertionSort r l).filter p).length_eq
  exact (h2.eq_of_length h3.symm).symm

/-- Emptiness of the `negamax` accumulator always errors: the local `value` is
read (by `max` or by `return`) before it was ever assigned. -/
theorem foldMaxAcc_unassigned (f : Move → Except Unit Score) (l : List Move) :
    foldMaxAcc f l none = Except.error () := by
  cases l <;> rfl

/-- Symmetric to `foldMaxAcc_unassigned` for the minimizing loop. -/
theorem foldMinAcc_unassigned (f : Move → Except Unit Score) (l : List Move) :
    foldMinAcc f l none = Except.error () := by
  cases l <;> rfl

/-- C5: for every position, `move_ordering` returns exactly a permutation of
the rules engine's legal moves (same multiset); it is sorted by the
`move_rank` key — descending (`pyKeyLe` with flag `true`) whenever
`game.ply > 1`, i.e. except during the first two plies of the game, where the
flag is `false` and the order is ascending — and it is stable: for every key
value, the moves with that key appear in exactly the engine's enumeration
order. -/
theorem c5_move_ordering_perm_sorted_stable {G : Type} (R : Rules G) (g : G) :
    (move_ordering R g).Perm (R.possible_moves g) ∧
    List.Sorted (fun a b => pyKeyLe (moveKey R g) (decide (1 < R.ply g)) a b = true)
      (move_ordering R g) ∧
    ∀ q : ℚ, (move_ordering R g).filter (fun m => decide (moveKey R g m = q)) =
      (R.possible_moves g).filter (fun m => decide (moveKey R g m = q)) := by
  refine ⟨List.perm_insertionSort _ _, ?_, ?_⟩
  · haveI : IsTotal Move
        (fun a b => pyKeyLe (moveKey R g) (decide (1 < R.ply g)) a b = true) :=
      ⟨fun a b => pyKeyLe_total _ _ a b⟩
    haveI : IsTrans Move
        (fun a b => pyKeyLe (moveKey R g) (decide (1 < R.ply g)) a b = true) :=
      ⟨fun _ _ _ h1 h2 => pyKeyLe_trans _ _ h1 h2⟩
    exact List.sorted_insertionSort _ _
  · intro q
    apply filter_insertionSort_eq
    intro a b ha hb
    have ha' : moveKey R g a = q := by simpa using ha
    have hb' : moveKey R g b = q := by simpa using hb
    exact pyKeyLe_of_eq _ _ (ha'.trans hb'.symm)

/-- C6: for every position whose result is a decisive or drawn terminal
state, `game_eval` returns exactly the corresponding sentinel or zero;
no flat-count or line-control term is added (the board's contents are
arbitrary in this statement and do not appear in the value). -/
theorem c6_game_eval_terminal_sentinels {G : Type} (R : Rules G) (g : G) :
    (R.result g = GameResult.WhiteWin → game_eval R g = Score.posInf) ∧
    (R.result g = GameResult.BlackWin → game_eval R g = Score.negInf) ∧
    (R.result g = GameResult.Draw → game_eval R g = Score.fin 0) := by
  refine ⟨fun h => ?_, fun h => ?_, fun h => ?_⟩ <;> simp [game_eval, h]

/-- Witness for C6 at the three concrete terminal positions of `c6Rules`
(whose board is non-empty, so a heuristic contribution would be visible). -/
theorem c6_game_eval_terminal_sentinels_witness :
    game_eval c6Rules 0 = Score.posInf ∧ game_eval c6Rules 1 = Score.negInf ∧
    game_eval c6Rules 2 = Score.fin 0 :=
  ⟨(c6_game_eval_terminal_sentinels c6Rules 0).1 rfl,
   (c6_game_eval_terminal_sentinels c6Rules 1).2.1 rfl,
   (c6_game_eval_terminal_sentinels c6Rules 2).2.2 rfl⟩

/-- C10: the unpruned minimax helper `negamax` errors (Python
`UnboundLocalError`: the accumulator `value` is read before any assignment,
already on the first loop iteration, or by `return value` when the move list
is empty) exactly on the Ongoing positions with depth at least 1; it returns
normally only for terminal positions or depth 0. -/
theorem c10_negamax_unbound_value {G : Type} (R : Rules G) (g : G) (d : Nat) :
    negamax R d g = Except.error () ↔ R.result g = GameResult.Ongoing ∧ 1 ≤ d := by
  cases hres : R.result g <;> cases d <;>
    simp [negamax, hres, foldMaxAcc_unassigned, foldMinAcc_unassigned]

/-- C7 counterexample: on an Ongoing position for which the rules engine
reports no legal moves, the depth-1 search call (full window) with White to
move returns the `-inf` sentinel — the Black-win sentinel score — rather than
signalling any error. -/
theorem c7_counterexample_returns_sentinel :
    c7Rules.result 0 = GameResult.Ongoing ∧ c7Rules.possible_moves 0 = [] ∧
    alpha_beta c7Rules 1 0 Score.negInf Score.posInf = .ok (some Score.negInf) := by
  refine ⟨rfl, rfl, ?_⟩
  simp [alpha_beta, pyTupleEqResult, move_ordering, c7Rules, abWhiteLoop]

/-- C7 amended: a search call on an Ongoing position with an empty legal-move
list and a positive depth budget raises no error at all: with White to move
it returns the `-inf` sentinel (the initial running best), and with Black to
move it returns no value (`None`), because the minimizing branch has no
`return` statement. -/
theorem c7_empty_moves_returns_sentinel_or_none {G : Type} (R : Rules G) (g : G)
    (d : Nat) (hres : R.result g = GameResult.Ongoing)
    (hmoves : R.possible_moves g = []) :
    (R.to_move g = Color.White →
      alpha_beta R (d + 1) g Score.negInf Score.posInf = .ok (some Score.negInf)) ∧
    (R.to_move g = Color.Black →
      alpha_beta R (d + 1) g Score.negInf Score.posInf = .ok none) := by
  have _ := hres
  constructor <;> intro htm <;>
    simp [alpha_beta, pyTupleEqResult, move_ordering, hmoves, htm, abWhiteLoop,
      abBlackLoop]

/-- Witness for C7's amended statement at the concrete Black-to-move instance
`c7bRules`. -/
theorem c7_empty_moves_returns_sentinel_or_none_witness :
    alpha_beta c7bRules 1 0 Score.negInf Score.posInf = .ok none :=
  (c7_empty_moves_returns_sentinel_or_none c7bRules 0 0 rfl rfl).2 rfl

/-- C1: concrete run showing the loop deviates from the claimed alpha-beta
schema.  In `c1Rules`, the ranked order is `[mvFlat, mvCap]`, the first child
is a draw (search value 0) and the second a White win (`+inf`).  With the
window `(alpha, beta) = (-inf, 0)` the claimed rule "stop once
`running_best >= beta`" stops after the first child and yields 0; the source's
strict `if value > beta` does not stop, the loop goes on to the second child
(updating `alpha = max(alpha, beta)`, reading `beta` instead of the running
best) and the call returns `+inf`. -/
theorem c1_cutoff_divergence :
    move_ordering c1Rules 0 = [mvFlat, mvCap] ∧
    game_eval c1Rules 1 = Score.fin 0 ∧
    alpha_beta c1Rules 1 0 Score.negInf (Score.fin 0) = .ok (some Score.posInf) := by
  refine ⟨?_, by simp [game_eval, c1Rules], ?_⟩ <;>
    norm_num [alpha_beta, pyTupleEqResult, move_ordering, List.insertionSort,
      List.orderedInsert, pyKeyLe, moveKey, move_rank, c1Rules, mvFlat, mvCap,
      row_col_score, cols, neighbor_stacks, boardGet, Move.square,
      PLACEMENT_VALUE, FLAT_VALUE, CAP_VALUE, ROAD_MOTIVATION, CENTER_PRIORITY,
      abWhiteLoop, game_eval, pyMax, pyLt, Score.leB, calculate_fcd,
      unique_rows_and_cols]

/-- C2: concrete run showing the terminal short-circuit of `alpha_beta` is
dead.  `c2Rules` is a position already won by White; a depth-1 search call
does not return the `+inf` sentinel: the tuple-valued `match` never fires,
the (empty) move list is ranked, and the Black branch falls off the end,
returning `None`. -/
theorem c2_terminal_not_short_circuited :
    c2Rules.result 0 = GameResult.WhiteWin ∧
    alpha_beta c2Rules 1 0 Score.negInf Score.posInf = .ok none := by
  refine ⟨rfl, ?_⟩
  simp [alpha_beta, pyTupleEqResult, move_ordering, c2Rules, abBlackLoop]

/-- C3: concrete run showing the depth-1 search with Black to move on an
Ongoing position returns no Score at all: the minimizing branch has no
`return`, so the call returns `None`. -/
theorem c3_black_branch_returns_no_value :
    c3Rules.result 0 = GameResult.Ongoing ∧ c3Rules.to_move 0 = Color.Black ∧
    alpha_beta c3Rules 1 0 Score.negInf Score.posInf = .ok none := by
  refine ⟨rfl, rfl, ?_⟩
  norm_num [alpha_beta, pyTupleEqResult, move_ordering, List.insertionSort,
    List.orderedInsert, pyKeyLe, moveKey, move_rank, c3Rules, mvFlat,
    row_col_score, cols, neighbor_stacks, boardGet, Move.square,
    PLACEMENT_VALUE, FLAT_VALUE, ROAD_MOTIVATION, CENTER_PRIORITY,
    abBlackLoop, game_eval, pyMin, pyLt, Score.leB, calculate_fcd,
    unique_rows_and_cols]
  exact fun h => absurd h (by decide)

/-- C4: concrete run showing `alpha_beta` on the full window and the unpruned
`negamax` do not compute the same value: on an Ongoing position with White to
move at depth 1, `negamax` raises (unbound `value`) while `alpha_beta`
returns the child's draw score 0. -/
theorem c4_pruned_and_unpruned_disagree :
    negamax c4Rules 1 0 = Except.error () ∧
    alpha_beta c4Rules 1 0 Score.negInf Score.posInf = .ok (some (Score.fin 0)) := by
  constructor
  · simp [negamax, c4Rules, foldMaxAcc_unassigned]
  · norm_num [alpha_beta, pyTupleEqResult, move_ordering, List.insertionSort,
      List.orderedInsert, pyKeyLe, moveKey, move_rank, c4Rules, mvFlat,
      row_col_score, cols, neighbor_stacks, boardGet, Move.square,
      PLACEMENT_VALUE, FLAT_VALUE, ROAD_MOTIVATION, CENTER_PRIORITY,
      abWhiteLoop, game_eval, pyMax, pyLt, Score.leB, calculate_fcd,
      unique_rows_and_cols]

/-- C9: concrete ranking scores on the empty 4×4 board (`c9Rules`).  The
board's true center is `(size - 1) / 2 = 1.5` per axis, so the flat placement
on `(1, 1)` (true Manhattan distance 1) is more central than the corner
placement on `(3, 3)` (distance 3) — `distance_from_center` of part_2 agrees.
Yet `move_rank` of src/bot.py measures from `(size + 1) / 2 = 2.5` and scores
the central placement 140 and the corner placement 180: the more central
placement of the same piece kind scores lower, not higher. -/
theorem c9_center_scored_below_corner :
    distance_from_center 1 1 4 = 1 ∧ distance_from_center 3 3 4 = 3 ∧
    moveKey c9Rules 0 (.place .Flat (1, 1)) = 140 ∧
    moveKey c9Rules 0 (.place .Flat (3, 3)) = 180 := by
  have hr4 : List.range 4 = [0, 1, 2, 3] := rfl
  have hgd : ∀ n : Nat, List.getD [0, 0, 0, 0] n 0 = 0 := by
    intro n
    rcases n with _ | _ | _ | _ | m <;> rfl
  have hge : ∀ (n : Nat) (h : n < ([0, 0, 0, 0] : List Nat).length),
      ([0, 0, 0, 0] : List Nat)[n] = 0 := by
    intro n h
    simp only [List.length_cons, List.length_nil] at h
    rcases n with _ | _ | _ | _ | m <;> first | rfl | omega
  refine ⟨?_, ?_, ?_, ?_⟩ <;>
    norm_num [distance_from_center, moveKey, move_rank, c9Rules, row_col_score,
      cols, neighbor_stacks, boardGet, Move.square, PLACEMENT_VALUE, FLAT_VALUE,
      ROAD_MOTIVATION, CENTER_PRIORITY, List.replicate, hr4, hgd, hge,
      List.countP_cons, List.countP_nil, List.filterMap_cons, List.filterMap_nil,
      abs]


/-! C8 helper lemmas.  Statements use the numeric code points directly
(space 32, `P` 80, `M` 77, `A` 65, `a` 97, `0` 48, `1` 49, `S` 83, `W` 87,
`C` 67, `+` 43, `-` 45, `<` 60, `>` 62); the definitions spell them as
character literals, which `simp` evaluates to the same numerals. -/

/-- Python prints a single decimal digit as itself. -/
theorem pyStrOfNat_digit : ∀ n, n < 10 → pyStrOfNat n = [48 + n] := by decide

/-- The file letter produced by `to_playtak_square` for an on-board column. -/
theorem fileCp_eq : ∀ c, c < 8 →
    ("ABCDEFGH".data.map Char.toNat).getD c 0 = 65 + c := by decide

/-- The rank digit produced by `to_playtak_square` for an on-board row. -/
theorem pyDigitRow (r : Nat) (h : r < 8) : pyStrOfNat (r + 1) = [49 + r] := by
  rw [pyStrOfNat_digit (r + 1) (by omega)]
  simp only [List.cons.injEq, and_true]
  omega

/-- `to_playtak_square` of an on-board square, in explicit code points. -/
theorem to_playtak_square_eq (r c : Nat) (hr : r < 8) (hc : c < 8) :
    to_playtak_square r c = [65 + c, 49 + r] := by
  rw [to_playtak_square, fileCp_eq c hc, pyDigitRow r hr]
  rfl

/-- `splitSpAux` moves a space-free chunk into the accumulator. -/
theorem splitSpAux_chunk : ∀ (t l acc : List Nat), (∀ c ∈ t, c ≠ 32) →
    splitSpAux (t ++ l) acc = splitSpAux l (acc ++ t)
  | [], l, acc, _ => by simp
  | c :: t, l, acc, h => by
    have hc : c ≠ ' '.toNat := h c (by simp)
    simp only [List.cons_append, splitSpAux, if_neg hc, List.append_eq]
    rw [splitSpAux_chunk t l (acc ++ [c]) (fun x hx => h x (by simp [hx]))]
    simp

/-- `splitSpAux` at a space flushes a non-empty accumulated token. -/
theorem splitSpAux_flush (l acc : List Nat) (h : acc ≠ []) :
    splitSpAux (32 :: l) acc = acc :: splitSpAux l [] := by
  simp [splitSpAux, h]

/-- `splitSpAux` at the end of input flushes a non-empty accumulated token. -/
theorem splitSpAux_last (acc : List Nat) (h : acc ≠ []) :
    splitSpAux [] acc = [acc] := by
  simp [splitSpAux, h]

/-- Splitting a space-joined list of space-free, non-empty tokens recovers
exactly the tokens. -/
theorem splitSp_joinSp : ∀ toks : List PyStr, toks ≠ [] →
    (∀ t ∈ toks, t ≠ [] ∧ ∀ c ∈ t, c ≠ 32) →
    splitSpAux (joinSp toks) [] = toks
  | [], h, _ => absurd rfl h
  | [t], _, hp => by
    obtain ⟨ht, hcs⟩ := hp t (by simp)
    have h1 := splitSpAux_chunk t [] [] hcs
    simp only [List.append_nil, List.nil_append] at h1
    rw [show joinSp [t] = t from rfl, h1, splitSpAux_last t ht]
  | t :: t2 :: rest, _, hp => by
    obtain ⟨ht, hcs⟩ := hp t (by simp)
    rw [show joinSp (t :: t2 :: rest) = t ++ ' '.toNat :: joinSp (t2 :: rest) from rfl]
    rw [splitSpAux_chunk t _ [] hcs]
    simp only [List.nil_append]
    rw [show (' '.toNat :: joinSp (t2 :: rest)) = 32 :: joinSp (t2 :: rest) from rfl]
    rw [splitSpAux_flush _ t ht]
    rw [splitSp_joinSp (t2 :: rest) (by simp)
      (fun x hx => hp x (List.mem_cons_of_mem _ hx))]

/-- Digit strings parse back to their drop counts. -/
theorem parseDrops_digits : ∀ dcs : List Nat, (∀ d ∈ dcs, 1 ≤ d ∧ d ≤ 8) →
    parseDrops (dcs.map (fun d => 48 + d)) = some dcs
  | [], _ => rfl
  | d :: dcs, h => by
    obtain ⟨h1, h8⟩ := h d (by simp)
    have hd : digitValCp (48 + d) = some d := by
      simp only [digitValCp, show '0'.toNat = 48 from rfl, show '9'.toNat = 57 from rfl]
      rw [if_pos (by omega)]
      simp
    simp only [List.map_cons, parseDrops, hd, if_pos h1]
    rw [parseDrops_digits dcs (fun x hx => h x (List.mem_cons_of_mem _ hx))]
    rfl

/-- `pyInt` of a single digit token. -/
theorem pyInt_digit (d : Nat) : pyInt [48 + d] = d := by
  simp [pyInt]

/-- Lowercasing an uppercase playtak square token gives the PTN square. -/
theorem lower_square_token (row col : Nat) (hr : row < 8) (hc : col < 8) :
    [65 + col, 49 + row].map lowerCp = [97 + col, 49 + row] := by
  simp only [List.map_cons, List.map_nil, lowerCp, show 'A'.toNat = 65 from rfl,
    show 'Z'.toNat = 90 from rfl]
  rw [if_pos (by omega), if_neg (by omega)]
  simp only [List.cons.injEq, and_true]
  omega

/-- Parsing the PTN square code points recovers the coordinates. -/
theorem parseSq_token (row col : Nat) (hr : row < 8) (hc : col < 8) (rest : PyStr) :
    parseSq ((97 + col) :: (49 + row) :: rest) = some ((row, col), rest) := by
  simp only [parseSq, parseFileCp, parseRankCp, show 'a'.toNat = 97 from rfl,
    show 'h'.toNat = 104 from rfl, show '1'.toNat = 49 from rfl,
    show '8'.toNat = 56 from rfl]
  rw [if_pos (by omega : 97 ≤ 97 + col ∧ 97 + col ≤ 104),
    if_pos (by omega : 49 ≤ 49 + row ∧ 49 + row ≤ 56)]
  simp only [Option.some.injEq, Prod.mk.injEq, and_true]
  omega

/-- Flattening a list of singleton strings is mapping. -/
theorem flatten_singletons (f : Nat → Nat) (l : List Nat) :
    (l.map (fun d => [f d])).flatten = l.map f := by
  induction l with
  | nil => rfl
  | cons a l ih => simp [ih]

/-- A non-empty space-free token followed by a space splits off whole. -/
theorem splitSpAux_token_sp (t : List Nat) (ht : t ≠ [])
    (hc : ∀ c ∈ t, c ≠ 32) (rest : List Nat) :
    splitSpAux (t ++ 32 :: rest) [] = t :: splitSpAux rest [] := by
  rw [splitSpAux_chunk t _ [] hc]
  simp only [List.nil_append]
  exact splitSpAux_flush rest t ht

/-- A non-empty space-free token at the end of the input splits off whole. -/
theorem splitSpAux_token_last (t : List Nat) (ht : t ≠ [])
    (hc : ∀ c ∈ t, c ≠ 32) :
    splitSpAux t [] = [t] := by
  have h := splitSpAux_chunk t [] [] hc
  simp only [List.append_nil, List.nil_append] at h
  rw [h, splitSpAux_last t ht]

/-- The square token contains no space. -/
theorem square_token_no_space (row col : Nat) :
    ∀ c ∈ [65 + col, 49 + row], c ≠ 32 := by
  intro c hcm
  simp only [List.mem_cons, List.not_mem_nil, or_false] at hcm
  rcases hcm with rfl | rfl <;> omega

/-- Tokenisation of a well-formed placement message. -/
theorem splitSp_wfPlace (row col : Nat) (p : Piece) :
    splitSp (wfPlaceStr row col p)
      = [[80], [65 + col, 49 + row]]
        ++ (match p with
            | Piece.Flat => []
            | Piece.Wall => [[87]]
            | Piece.Cap => [[67]]) := by
  have hsq := square_token_no_space row col
  cases p
  case Flat =>
    have hshape : wfPlaceStr row col Piece.Flat
        = [80] ++ 32 :: [65 + col, 49 + row] := by
      simp [wfPlaceStr]
    rw [splitSp, hshape, splitSpAux_token_sp _ (by simp) (by decide),
      splitSpAux_token_last _ (by simp) hsq]
    rfl
  case Wall =>
    have hshape : wfPlaceStr row col Piece.Wall
        = [80] ++ 32 :: ([65 + col, 49 + row] ++ 32 :: [87]) := by
      simp [wfPlaceStr]
    rw [splitSp, hshape, splitSpAux_token_sp _ (by simp) (by decide),
      splitSpAux_token_sp _ (by simp) hsq,
      splitSpAux_token_last _ (by simp) (by decide)]
    rfl
  case Cap =>
    have hshape : wfPlaceStr row col Piece.Cap
        = [80] ++ 32 :: ([65 + col, 49 + row] ++ 32 :: [67]) := by
      simp [wfPlaceStr]
    rw [splitSp, hshape, splitSpAux_token_sp _ (by simp) (by decide),
      splitSpAux_token_sp _ (by simp) hsq,
      splitSpAux_token_last _ (by simp) (by decide)]
    rfl

/-- The drop tokens of a well-formed spread message are non-empty and
space-free. -/
theorem drop_tokens_ok (dcs : List Nat) :
    ∀ t ∈ dcs.map (fun d => [48 + d]), t ≠ [] ∧ ∀ c ∈ t, c ≠ 32 := by
  intro t htm
  simp only [List.mem_map] at htm
  obtain ⟨d, _, rfl⟩ := htm
  refine ⟨by simp, ?_⟩
  intro c hcm
  simp only [List.mem_cons, List.not_mem_nil, or_false] at hcm
  subst hcm
  omega

/-- Tokenisation of a well-formed spread message. -/
theorem splitSp_wfSpread (row col : Nat) (dir : Direction) (dcs : List Nat)
    (hne : dcs ≠ []) :
    splitSp (wfSpreadStr row col dir dcs)
      = [[77], [65 + col, 49 + row],
         [65 + (spreadEnd row col dir dcs.length).2,
          49 + (spreadEnd row col dir dcs.length).1]]
        ++ dcs.map (fun d => [48 + d]) := by
  have hsq1 := square_token_no_space row col
  have hsq2 := square_token_no_space (spreadEnd row col dir dcs.length).1
    (spreadEnd row col dir dcs.length).2
  have hshape : wfSpreadStr row col dir dcs
      = [77] ++ 32 :: ([65 + col, 49 + row]
          ++ 32 :: ([65 + (spreadEnd row col dir dcs.length).2,
              49 + (spreadEnd row col dir dcs.length).1]
            ++ 32 :: joinSp (dcs.map (fun d => [48 + d])))) := by
    simp [wfSpreadStr]
  rw [splitSp, hshape, splitSpAux_token_sp _ (by simp) (by decide),
    splitSpAux_token_sp _ (by simp) hsq1,
    splitSpAux_token_sp _ (by simp) hsq2,
    splitSp_joinSp _ (by simpa using hne) (drop_tokens_ok dcs)]
  rfl

/-- The modelled PTN constructor on a flat placement text. -/
theorem pyMoveOfPtn_flat (row col : Nat) (hr : row < 8) (hc : col < 8) :
    pyMoveOfPtn [97 + col, 49 + row] = some (Move.place Piece.Flat (row, col)) := by
  have h83 : (97 + col = 83) = False := eq_false (by omega)
  have h67 : (97 + col = 67) = False := eq_false (by omega)
  have hdig : digitValCp (97 + col) = none := by
    simp only [digitValCp, show '0'.toNat = 48 from rfl, show '9'.toNat = 57 from rfl]
    rw [if_neg (by omega)]
  simp [pyMoveOfPtn, h83, h67, hdig, parsePlace, parseSq_token row col hr hc]

/-- The modelled PTN constructor on wall and capstone placement texts. -/
theorem pyMoveOfPtn_noble (row col : Nat) (hr : row < 8) (hc : col < 8) :
    pyMoveOfPtn (83 :: (97 + col) :: (49 + row) :: [])
        = some (Move.place Piece.Wall (row, col)) ∧
    pyMoveOfPtn (67 :: (97 + col) :: (49 + row) :: [])
        = some (Move.place Piece.Cap (row, col)) := by
  constructor <;>
    simp [pyMoveOfPtn, parsePlace, parseSq_token row col hr hc]

/-- The modelled PTN constructor on a spread text whose count is the drop
sum. -/
theorem pyMoveOfPtn_spread (row col : Nat) (hr : row < 8) (hc : col < 8)
    (dir : Direction) (dch : Nat) (hdch : parseDirCp dch = some dir)
    (dcs : List Nat) (hne : dcs ≠ []) (hall : ∀ d ∈ dcs, 1 ≤ d ∧ d ≤ 8)
    (hsum : dcs.sum ≤ 8) :
    pyMoveOfPtn ((48 + dcs.sum) :: (97 + col) :: (49 + row) :: dch
        :: dcs.map (fun d => 48 + d))
      = some (Move.spread (row, col) dir dcs) := by
  have h83 : (48 + dcs.sum = 83) = False := eq_false (by omega)
  have h67 : (48 + dcs.sum = 67) = False := eq_false (by omega)
  have hdig : digitValCp (48 + dcs.sum) = some dcs.sum := by
    simp only [digitValCp, show '0'.toNat = 48 from rfl, show '9'.toNat = 57 from rfl]
    rw [if_pos (by omega)]
    simp
  simp [pyMoveOfPtn, h83, h67, hdig, parseSq_token row col hr hc, hdch,
    parseDrops_digits dcs hall, hne]

/-- Encoding an in-range placement yields exactly the well-formed message. -/
theorem to_playtak_place_eq (p : Piece) (row col : Nat) (hr : row < 8)
    (hc : col < 8) :
    to_playtak_notation (Move.place p (row, col)) = wfPlaceStr row col p := by
  cases p <;>
    simp [ to_playtak_notation, to_playtak_square_eq row col hr hc, wfPlaceStr]

/-- Decoding a well-formed placement message yields the placement, through
the rebuilt PTN text. -/
theorem from_wfPlace (row col : Nat) (hr : row < 8) (hc : col < 8) (p : Piece) :
    from_playtak_notation (wfPlaceStr row col p)
      = some (Move.place p (row, col)) := by
  cases p
  case Flat =>
    simp [ from_playtak_notation, splitSp_wfPlace row col Piece.Flat,
      lower_square_token row col hr hc, pyMoveOfPtn_flat row col hr hc]
  case Wall =>
    simp [ from_playtak_notation, splitSp_wfPlace row col Piece.Wall,
      lower_square_token row col hr hc, (pyMoveOfPtn_noble row col hr hc).1]
  case Cap =>
    simp [ from_playtak_notation, splitSp_wfPlace row col Piece.Cap,
      lower_square_token row col hr hc, (pyMoveOfPtn_noble row col hr hc).2]

/-- Encoding an in-range spread yields exactly the well-formed message. -/
theorem to_playtak_spread_eq (row col : Nat) (dir : Direction) (dcs : List Nat)
    (h : moveInRange (Move.spread (row, col) dir dcs) = true) :
    to_playtak_notation (Move.spread (row, col) dir dcs)
      = wfSpreadStr row col dir dcs := by
  simp only [moveInRange, Bool.and_eq_true, decide_eq_true_eq,
    List.all_eq_true] at h
  obtain ⟨⟨⟨⟨⟨hr, hc⟩, hne⟩, hall⟩, hsum⟩, hdir⟩ := h
  have hall' : ∀ d ∈ dcs, 1 ≤ d ∧ d ≤ 8 := fun d hd => by simpa using hall d hd
  have hmap : dcs.map pyStrOfNat = dcs.map (fun d => [48 + d]) :=
    List.map_congr_left (fun d hd =>
      pyStrOfNat_digit d (by have := (hall' d hd).2; omega))
  have hend1 : (spreadEnd row col dir dcs.length).1 < 8 := by
    cases dir <;> simp only [spreadEnd, decide_eq_true_eq] at hdir ⊢ <;> omega
  have hend2 : (spreadEnd row col dir dcs.length).2 < 8 := by
    cases dir <;> simp only [spreadEnd, decide_eq_true_eq] at hdir ⊢ <;> omega
  simp [ to_playtak_notation, to_playtak_square_eq row col hr hc,
    to_playtak_square_eq _ _ hend1 hend2, wfSpreadStr, hmap]

/-- Decoding a well-formed spread message yields the spread, with the
direction recovered from the sign of the file delta and then of the rank
delta between the start and end squares. -/
theorem from_wfSpread (row col : Nat) (dir : Direction) (dcs : List Nat)
    (h : moveInRange (Move.spread (row, col) dir dcs) = true) :
    from_playtak_notation (wfSpreadStr row col dir dcs)
      = some (Move.spread (row, col) dir dcs) := by
  simp only [moveInRange, Bool.and_eq_true, decide_eq_true_eq,
    List.all_eq_true] at h
  obtain ⟨⟨⟨⟨⟨hr, hc⟩, hne⟩, hall⟩, hsum⟩, hdir⟩ := h
  have hall' : ∀ d ∈ dcs, 1 ≤ d ∧ d ≤ 8 := fun d hd => by simpa using hall d hd
  have hkpos : 0 < dcs.length := List.length_pos.mpr hne
  have hsplit := splitSp_wfSpread row col dir dcs hne
  have hmapInt : (dcs.map (fun d => [48 + d])).map pyInt = dcs := by
    rw [List.map_map]
    have hcmp : (pyInt ∘ fun d : Nat => [48 + d]) = id := by
      funext d
      exact pyInt_digit d
    rw [hcmp, List.map_id]
  have hflat : (dcs.map (fun d => [48 + d])).flatten = dcs.map (fun d => 48 + d) :=
    flatten_singletons _ dcs
  have hsumstr : pyStrOfNat dcs.sum = [48 + dcs.sum] :=
    pyStrOfNat_digit dcs.sum (by omega)
  cases dir
  case Up =>
    simp only [spreadEnd] at hsplit
    replace hdir := of_decide_eq_true hdir
    have g1 : ∀ d : Nat, ([65 + col, 49 + row] : List Nat).getD 0 d = 65 + col :=
      fun _ => rfl
    have g2 : ∀ d : Nat, ([65 + col, 49 + row] : List Nat).getD 1 d = 49 + row :=
      fun _ => rfl
    have g3 : ∀ d : Nat,
        ([65 + col, 49 + (row + dcs.length)] : List Nat).getD 0 d = 65 + col :=
      fun _ => rfl
    have g4 : ∀ d : Nat,
        ([65 + col, 49 + (row + dcs.length)] : List Nat).getD 1 d
          = 49 + (row + dcs.length) := fun _ => rfl
    simp only [ from_playtak_notation, hsplit, List.cons_append, List.nil_append,
      eq_false (by decide : ¬(([77] : List Nat) = ['P'.toNat])),
      ite_true, ite_false, g1, g2, g3, g4]
    split_ifs with hM h1 h2 h3 h4 <;>
      first
        | exact absurd rfl hM
        | exact absurd h1 (by omega)
        | exact absurd h2 (by omega)
        | exact absurd h4 (by omega)
        | exact absurd (by omega) h1
        | exact absurd (by omega) h2
        | exact absurd (by omega) h3
        | exact absurd (by omega) h4
        | simp [hmapInt, hsumstr, hflat, lower_square_token row col hr hc,
            pyMoveOfPtn_spread row col hr hc Direction.Up 43 (by decide) dcs hne
              hall' hsum]
  case Down =>
    simp only [spreadEnd] at hsplit
    replace hdir := of_decide_eq_true hdir
    have g1 : ∀ d : Nat, ([65 + col, 49 + row] : List Nat).getD 0 d = 65 + col :=
      fun _ => rfl
    have g2 : ∀ d : Nat, ([65 + col, 49 + row] : List Nat).getD 1 d = 49 + row :=
      fun _ => rfl
    have g3 : ∀ d : Nat,
        ([65 + col, 49 + (row - dcs.length)] : List Nat).getD 0 d = 65 + col :=
      fun _ => rfl
    have g4 : ∀ d : Nat,
        ([65 + col, 49 + (row - dcs.length)] : List Nat).getD 1 d
          = 49 + (row - dcs.length) := fun _ => rfl
    simp only [ from_playtak_notation, hsplit, List.cons_append, List.nil_append,
      eq_false (by decide : ¬(([77] : List Nat) = ['P'.toNat])),
      ite_true, ite_false, g1, g2, g3, g4]
    split_ifs with hM h1 h2 h3 h4 <;>
      first
        | exact absurd rfl hM
        | exact absurd h1 (by omega)
        | exact absurd h2 (by omega)
        | exact absurd h3 (by omega)
        | exact absurd (by omega) h1
        | exact absurd (by omega) h2
        | exact absurd (by omega) h3
        | exact absurd (by omega) h4
        | simp [hmapInt, hsumstr, hflat, lower_square_token row col hr hc,
            pyMoveOfPtn_spread row col hr hc Direction.Down 45 (by decide) dcs hne
              hall' hsum]
  case Left =>
    simp only [spreadEnd] at hsplit
    replace hdir := of_decide_eq_true hdir
    have g1 : ∀ d : Nat, ([65 + col, 49 + row] : List Nat).getD 0 d = 65 + col :=
      fun _ => rfl
    have g2 : ∀ d : Nat, ([65 + col, 49 + row] : List Nat).getD 1 d = 49 + row :=
      fun _ => rfl
    have g3 : ∀ d : Nat,
        ([65 + (col - dcs.length), 49 + row] : List Nat).getD 0 d
          = 65 + (col - dcs.length) := fun _ => rfl
    have g4 : ∀ d : Nat,
        ([65 + (col - dcs.length), 49 + row] : List Nat).getD 1 d = 49 + row :=
      fun _ => rfl
    simp only [ from_playtak_notation, hsplit, List.cons_append, List.nil_append,
      eq_false (by decide : ¬(([77] : List Nat) = ['P'.toNat])),
      ite_true, ite_false, g1, g2, g3, g4]
    split_ifs with hM h1 h2 h3 h4 <;>
      first
        | exact absurd rfl hM
        | exact absurd h1 (by omega)
        | exact absurd h3 (by omega)
        | exact absurd h4 (by omega)
        | exact absurd (by omega) h1
        | exact absurd (by omega) h2
        | exact absurd (by omega) h3
        | exact absurd (by omega) h4
        | simp [hmapInt, hsumstr, hflat, lower_square_token row col hr hc,
            pyMoveOfPtn_spread row col hr hc Direction.Left 60 (by decide) dcs hne
              hall' hsum]
  case Right =>
    simp only [spreadEnd] at hsplit
    replace hdir := of_decide_eq_true hdir
    have g1 : ∀ d : Nat, ([65 + col, 49 + row] : List Nat).getD 0 d = 65 + col :=
      fun _ => rfl
    have g2 : ∀ d : Nat, ([65 + col, 49 + row] : List Nat).getD 1 d = 49 + row :=
      fun _ => rfl
    have g3 : ∀ d : Nat,
        ([65 + (col + dcs.length), 49 + row] : List Nat).getD 0 d
          = 65 + (col + dcs.length) := fun _ => rfl
    have g4 : ∀ d : Nat,
        ([65 + (col + dcs.length), 49 + row] : List Nat).getD 1 d = 49 + row :=
      fun _ => rfl
    simp only [ from_playtak_notation, hsplit, List.cons_append, List.nil_append,
      eq_false (by decide : ¬(([77] : List Nat) = ['P'.toNat])),
      ite_true, ite_false, g1, g2, g3, g4]
    split_ifs with hM h1 h2 h3 h4 <;>
      first
        | exact absurd rfl hM
        | exact absurd h2 (by omega)
        | exact absurd h3 (by omega)
        | exact absurd h4 (by omega)
        | exact absurd (by omega) h1
        | simp [hmapInt, hsumstr, hflat, lower_square_token row col hr hc,
            pyMoveOfPtn_spread row col hr hc Direction.Right 62 (by decide) dcs hne
              hall' hsum]

/-- C8: the wire-notation round trip.  First conjunct: decoding the encoding
of any in-range Place or Spread move yields the move back.  Second and third
conjuncts: for every well-formed server string of the forms
`P <square>[ <W|C>]` and `M <start> <end> <drops...>` (spelled out by
`wfPlaceStr` / `wfSpreadStr`), decoding succeeds and re-encoding the decoded
move reproduces the string exactly, code point for code point; on decode the
spread direction is determined by the sign of the file then rank delta
between start and end squares (see `from_playtak_notation`). -/
theorem c8_playtak_round_trip :
    (∀ m : Move, moveInRange m = true →
      from_playtak_notation ( to_playtak_notation m) = some m) ∧
    (∀ row col : Nat, ∀ p : Piece, row < 8 → col < 8 →
      ∃ m, from_playtak_notation (wfPlaceStr row col p) = some m ∧
        to_playtak_notation m = wfPlaceStr row col p) ∧
    (∀ row col : Nat, ∀ dir : Direction, ∀ dcs : List Nat,
      moveInRange (Move.spread (row, col) dir dcs) = true →
      ∃ m, from_playtak_notation (wfSpreadStr row col dir dcs) = some m ∧
        to_playtak_notation m = wfSpreadStr row col dir dcs) := by
  have hplace : ∀ row col : Nat, ∀ p : Piece, row < 8 → col < 8 →
      from_playtak_notation (wfPlaceStr row col p) = some (Move.place p (row, col)) ∧
      to_playtak_notation (Move.place p (row, col)) = wfPlaceStr row col p :=
    fun row col p hr hc =>
      ⟨from_wfPlace row col hr hc p, to_playtak_place_eq p row col hr hc⟩
  refine ⟨?_, ?_, ?_⟩
  · intro m hm
    cases m with
    | place p sq =>
      obtain ⟨row, col⟩ := sq
      have hm' := hm
      simp only [moveInRange, Bool.and_eq_true, decide_eq_true_eq] at hm'
      obtain ⟨hr, hc⟩ := hm'
      rw [(hplace row col p hr hc).2, (hplace row col p hr hc).1]
    | spread sq dir dcs =>
      obtain ⟨row, col⟩ := sq
      rw [to_playtak_spread_eq row col dir dcs hm, from_wfSpread row col dir dcs hm]
  · intro row col p hr hc
    exact ⟨Move.place p (row, col), (hplace row col p hr hc).1,
      (hplace row col p hr hc).2⟩
  · intro row col dir dcs h
    exact ⟨Move.spread (row, col) dir dcs, from_wfSpread row col dir dcs h,
      to_playtak_spread_eq row col dir dcs h⟩

/-- Witness for C8 at a concrete spread move: two stones carried from a1
rightwards, one dropped on b1 and one on c1. -/
theorem c8_playtak_round_trip_witness :
    moveInRange (Move.spread (0, 0) Direction.Right [1, 1]) = true ∧
    from_playtak_notation
        ( to_playtak_notation (Move.spread (0, 0) Direction.Right [1, 1]))
      = some (Move.spread (0, 0) Direction.Right [1, 1]) :=
  ⟨by decide, c8_playtak_round_trip.1 _ (by decide)⟩
